import Mathlib

/-!
Verification of the galion-universal-downloader core against its
natural-language specification.

The Lean definitions below are shallow embeddings of the Python source:

* `QueueManager` (app/core/queue_manager.py) — a Redis-backed priority job
  queue.  Redis structures are modelled explicitly: the pending sorted set as
  an association list of (member, score) ordered on pop by (score, member),
  sets as lists, hashes as records with `Option` fields (a missing hash field
  is `none`, matching `hgetall` of a partial or absent hash).  Job ids
  (uuid4 strings in the source) are modelled as `Nat`; the SHA-256 URL
  fingerprint is an abstract function parameter `hash`.  Timestamps are `Nat`
  seconds; Redis key TTLs are modelled by storing the expiry instant.
* `DownloadEngine.download_file` (app/core/download_engine.py) — inputs that
  the code obtains from the outside world (the on-disk destination file, the
  HEAD probe, the GET response) are explicit arguments; SHA-256 is an
  abstract function parameter `digest`.
* `PlatformRegistry` (app/core/platform_router.py) and the generic handler
  (app/platforms/handlers/generic.py) — registration order, priority table
  and the generic URL classifier.  Python text operations are modelled over
  `List Char`.
* `YouTubeHandler._get_format_string` and the audio post-processor logic
  (app/platforms/handlers/youtube.py).
-/

/-! ## Queue manager state (app/core/queue_manager.py) -/

/-- One Redis job hash `galion:jobs:{job_id}`.  Every field is optional
because a Redis hash only holds the fields that some `hset` wrote; `hgetall`
of an absent key yields the empty hash (`emptyJob`). -/
structure JobRecord where
  jid : Option Nat := none
  url : Option String := none
  urlHash : Option String := none
  platformId : Option String := none
  options : Option String := none
  status : Option String := none
  priority : Option Nat := none
  createdAt : Option Nat := none
  progress : Option Nat := none
  error : Option String := none
  retryCount : Option Nat := none
  maxRetries : Option Nat := none
  lastError : Option String := none
  startedAt : Option Nat := none
  completedAt : Option Nat := none
  failedAt : Option Nat := none
  result : Option String := none
  speed : Option Nat := none
  eta : Option Nat := none
deriving DecidableEq

def emptyJob : JobRecord := {}

/-- The logical queue state: the `galion:*` keyspace of the source plus the
in-process `_paused` flag.  `pending` is the sorted set
`galion:queue:pending` as (member, score) pairs; `fingerprints` maps a URL
hash to (job id, expiry instant) modelling `setex` with the job TTL. -/
structure QueueState where
  pending : List (Nat × Int) := []
  active : List Nat := []
  completedLog : List Nat := []
  failedLog : List Nat := []
  jobs : List (Nat × JobRecord) := []
  fingerprints : List (String × Nat × Nat) := []
  totalQueued : Nat := 0
  totalCompleted : Nat := 0
  totalFailed : Nat := 0
  paused : Bool := false
deriving DecidableEq

def initState : QueueState := {}

/-- Source constant `JOB_TTL = 3600 * 24 * 7` seconds (7 days). -/
def JOB_TTL : Nat := 3600 * 24 * 7

/-- The priority score of the source:
`score = (10 - priority) * 1e12 + timestamp` (smaller = served sooner). -/
def score (priority : Nat) (now : Nat) : Int :=
  (10 - (priority : Int)) * 10 ^ 12 + (now : Int)

/-- Redis `ZADD`: upsert a member with its score. -/
def zadd (m : Nat) (sc : Int) : List (Nat × Int) → List (Nat × Int)
  | [] => [(m, sc)]
  | (m', s') :: rest =>
    if m' = m then (m, sc) :: rest else (m', s') :: zadd m sc rest

/-- Redis `SADD`. -/
def sadd (x : Nat) (l : List Nat) : List Nat :=
  if x ∈ l then l else x :: l

/-- Hash lookup (`hgetall` returning `none` when the key is absent). -/
def lookupJob (k : Nat) : List (Nat × JobRecord) → Option JobRecord
  | [] => none
  | (k', v) :: rest => if k' = k then some v else lookupJob k rest

/-- Redis `HSET` with a field mapping: merge fields into the existing hash,
creating the hash when the key is absent. -/
def setJob (k : Nat) (f : JobRecord → JobRecord) :
    List (Nat × JobRecord) → List (Nat × JobRecord)
  | [] => [(k, f emptyJob)]
  | (k', v) :: rest =>
    if k' = k then (k, f v) :: rest else (k', v) :: setJob k f rest

/-- Redis `GET` on `galion:urls:{hash}`: the value is visible only before
its `setex` expiry. -/
def fpGet (h : String) (now : Nat) : List (String × Nat × Nat) → Option Nat
  | [] => none
  | (h', jid, e) :: rest =>
    if h' = h then (if now < e then some jid else none) else fpGet h now rest

/-- Redis `SETEX` on `galion:urls:{hash}`. -/
def fpSet (h : String) (jid e : Nat) :
    List (String × Nat × Nat) → List (String × Nat × Nat)
  | [] => [(h, jid, e)]
  | (h', v) :: rest =>
    if h' = h then (h, jid, e) :: rest else (h', v) :: fpSet h jid e rest

/-- The lexicographic (score, member) key by which the Redis sorted set
orders its entries. -/
def keyOf (p : Nat × Int) : Int × Nat := (p.2, p.1)

def lexLe (a b : Int × Nat) : Prop :=
  a.1 < b.1 ∨ (a.1 = b.1 ∧ a.2 ≤ b.2)

instance (a b : Int × Nat) : Decidable (lexLe a b) := by
  unfold lexLe; infer_instance

/-- Redis `ZPOPMIN`: remove and return the entry least under (score, member). -/
def zpopmin : List (Nat × Int) → Option ((Nat × Int) × List (Nat × Int))
  | [] => none
  | x :: xs =>
    match zpopmin xs with
    | none => some (x, [])
    | some (m, rest) =>
      if lexLe (keyOf x) (keyOf m) then some (x, xs) else some (m, x :: rest)

/-! ### Queue operations -/

/-- Model of `QueueManager.enqueue`.  Here `hash` stands for
`hashlib.sha256(url.encode()).hexdigest()[:16]`; `newId` for `uuid4()`;
`now` for `datetime.utcnow()`.  Returns the new job id, or `none` on a
dedup hit. -/
def enqueue (hash : String → String) (newId now : Nat) (url : String)
    (platformId : Option String) (options : String) (priority : Nat)
    (deduplicate : Bool) (s : QueueState) : Option Nat × QueueState :=
  if deduplicate && (fpGet (hash url) now s.fingerprints).isSome then
    (none, s)
  else
    let jrec : JobRecord :=
      { jid := some newId
        url := some url
        urlHash := some (hash url)
        platformId := some (platformId.getD "unknown")
        options := some options
        status := some "pending"
        priority := some priority
        createdAt := some now
        progress := some 0
        error := some "" }
    (some newId,
      { s with
        jobs := setJob newId (fun _ => jrec) s.jobs,
        pending := zadd newId (score priority now) s.pending,
        fingerprints :=
          if deduplicate then fpSet (hash url) newId (now + JOB_TTL) s.fingerprints
          else s.fingerprints,
        totalQueued := s.totalQueued + 1 })

/-- Model of `QueueManager.dequeue`.  Pops the lowest-score pending id, moves it to
the active set, marks it `processing` and returns the job hash as read
before that update (the source reads `hgetall` first). -/
def dequeue (now : Nat) (s : QueueState) : Option JobRecord × QueueState :=
  if s.paused then (none, s)
  else
    match zpopmin s.pending with
    | none => (none, s)
    | some ((jid, _), rest) =>
      let act := sadd jid s.active
      match lookupJob jid s.jobs with
      | none => (none, { s with pending := rest, active := act.erase jid })
      | some jrec =>
        (some jrec,
          { s with
            pending := rest,
            active := act,
            jobs := setJob jid
              (fun r => { r with
                status := some "processing",
                startedAt := some now }) s.jobs })

/-- Model of `QueueManager.complete`: unconditionally removes the id from the active
set, rewrites the job hash, prepends to the completed log (trimmed to 1000)
and increments `total_completed`. -/
def complete (now jid : Nat) (result : String) (s : QueueState) : QueueState :=
  { s with
    active := s.active.erase jid,
    jobs := setJob jid
      (fun r => { r with
        status := some "completed",
        completedAt := some now,
        result := some result }) s.jobs,
    completedLog := (jid :: s.completedLog).take 1000,
    totalCompleted := s.totalCompleted + 1 }

/-- Model of `QueueManager.fail`.  Reads `retry_count` (default 0) and `max_retries`
(default 3) from the job hash (`hgetall` of an absent key yields the empty
hash).  With retries remaining and `retry=True`: decrement priority
(floored at 0), bump the retry count, set status `pending` and reinsert
with a fresh score.  Otherwise: dead-letter and count `total_failed`. -/
def fail (now jid : Nat) (err : String) (retry : Bool) (s : QueueState) :
    QueueState :=
  let jrec := (lookupJob jid s.jobs).getD emptyJob
  let rc := jrec.retryCount.getD 0
  let mr := jrec.maxRetries.getD 3
  if retry && decide (rc < mr) then
    let pr := jrec.priority.getD 5 - 1
    { s with
      active := s.active.erase jid,
      jobs := setJob jid
        (fun r => { r with
          status := some "pending",
          retryCount := some (rc + 1),
          lastError := some err,
          priority := some pr }) s.jobs,
      pending := zadd jid (score pr now) s.pending }
  else
    { s with
      active := s.active.erase jid,
      jobs := setJob jid
        (fun r => { r with
          status := some "failed",
          failedAt := some now,
          error := some err }) s.jobs,
      failedLog := jid :: s.failedLog,
      totalFailed := s.totalFailed + 1 }

/-- Model of `QueueManager.update_progress`. -/
def updateProgress (jid progress spd eta : Nat) (s : QueueState) : QueueState :=
  { s with
    jobs := setJob jid
      (fun r => { r with
        progress := some progress,
        speed := some spd,
        eta := some eta }) s.jobs }

/-- One queue-manager call, for reasoning about reachable states. -/
inductive QOp where
  | enq (newId now : Nat) (url : String) (platformId : Option String)
        (options : String) (priority : Nat) (dedup : Bool)
  | deq (now : Nat)
  | comp (now jid : Nat) (result : String)
  | flop (now jid : Nat) (err : String) (retry : Bool)
  | upd (jid progress spd eta : Nat)
  | pauseOp
  | resumeOp
  | clearCompletedOp

def applyOp (hash : String → String) (op : QOp) (s : QueueState) : QueueState :=
  match op with
  | .enq newId now url pf opts prio dedup =>
    (enqueue hash newId now url pf opts prio dedup s).2
  | .deq now => (dequeue now s).2
  | .comp now jid r => complete now jid r s
  | .flop now jid e retry => fail now jid e retry s
  | .upd jid p spd eta => updateProgress jid p spd eta s
  | .pauseOp => { s with paused := true }
  | .resumeOp => { s with paused := false }
  | .clearCompletedOp => { s with completedLog := [] }

def runOps (hash : String → String) (ops : List QOp) : QueueState :=
  ops.foldl (fun s op => applyOp hash op s) initState
/-! ### Pop-order theory for the pending sorted set (C5) -/

theorem lexLe_refl (a : Int × Nat) : lexLe a a := by
  unfold lexLe; omega

theorem lexLe_trans {a b c : Int × Nat} (h1 : lexLe a b) (h2 : lexLe b c) :
    lexLe a c := by
  unfold lexLe at *; omega

theorem lexLe_total (a b : Int × Nat) : lexLe a b ∨ lexLe b a := by
  unfold lexLe; omega

theorem zpopmin_eq_none {l : List (Nat × Int)} :
    zpopmin l = none ↔ l = [] := by
  cases l with
  | nil => simp [zpopmin]
  | cons x xs =>
    simp only [zpopmin]
    cases hxs : zpopmin xs with
    | none => simp
    | some p =>
      obtain ⟨m, rest⟩ := p
      by_cases h : lexLe (keyOf x) (keyOf m) <;> simp [h]

theorem zpopmin_length {l rest : List (Nat × Int)} {a : Nat × Int}
    (h : zpopmin l = some (a, rest)) : l.length = rest.length + 1 := by
  induction l generalizing a rest with
  | nil => simp [zpopmin] at h
  | cons x xs ih =>
    simp only [zpopmin] at h
    cases hxs : zpopmin xs with
    | none =>
      rw [hxs] at h
      obtain rfl : xs = [] := zpopmin_eq_none.mp hxs
      simp at h
      obtain ⟨rfl, rfl⟩ := h
      simp
    | some p =>
      obtain ⟨m, rest'⟩ := p
      rw [hxs] at h
      by_cases hle : lexLe (keyOf x) (keyOf m)
      · simp [hle] at h
        obtain ⟨rfl, rfl⟩ := h
        simp
      · simp [hle] at h
        obtain ⟨rfl, rfl⟩ := h
        simp [ih hxs]

theorem zpopmin_perm {l rest : List (Nat × Int)} {a : Nat × Int}
    (h : zpopmin l = some (a, rest)) : l.Perm (a :: rest) := by
  induction l generalizing a rest with
  | nil => simp [zpopmin] at h
  | cons x xs ih =>
    simp only [zpopmin] at h
    cases hxs : zpopmin xs with
    | none =>
      rw [hxs] at h
      obtain rfl : xs = [] := zpopmin_eq_none.mp hxs
      simp at h
      obtain ⟨rfl, rfl⟩ := h
      exact List.Perm.refl _
    | some p =>
      obtain ⟨m, rest'⟩ := p
      rw [hxs] at h
      by_cases hle : lexLe (keyOf x) (keyOf m)
      · simp [hle] at h
        obtain ⟨rfl, rfl⟩ := h
        exact List.Perm.refl _
      · simp [hle] at h
        obtain ⟨rfl, rfl⟩ := h
        exact ((ih hxs).cons x).trans (List.Perm.swap m x rest')

theorem zpopmin_min {l rest : List (Nat × Int)} {a : Nat × Int}
    (h : zpopmin l = some (a, rest)) :
    ∀ b ∈ l, lexLe (keyOf a) (keyOf b) := by
  induction l generalizing a rest with
  | nil => simp [zpopmin] at h
  | cons x xs ih =>
    simp only [zpopmin] at h
    cases hxs : zpopmin xs with
    | none =>
      rw [hxs] at h
      obtain rfl : xs = [] := zpopmin_eq_none.mp hxs
      simp at h
      obtain ⟨rfl, rfl⟩ := h
      intro b hb
      simp at hb
      subst hb
      exact lexLe_refl _
    | some p =>
      obtain ⟨m, rest'⟩ := p
      rw [hxs] at h
      by_cases hle : lexLe (keyOf x) (keyOf m)
      · simp [hle] at h
        obtain ⟨rfl, rfl⟩ := h
        intro b hb
        rcases List.mem_cons.mp hb with rfl | hb
        · exact lexLe_refl _
        · exact lexLe_trans hle (ih hxs b hb)
      · simp [hle] at h
        obtain ⟨rfl, rfl⟩ := h
        intro b hb
        rcases List.mem_cons.mp hb with rfl | hb
        · rcases lexLe_total (keyOf b) (keyOf m) with h' | h'
          · exact absurd h' hle
          · exact h'
        · exact ih hxs b hb

def popAllGo : Nat → List (Nat × Int) → List (Nat × Int)
  | 0, _ => []
  | fuel + 1, l =>
    match zpopmin l with
    | none => []
    | some (a, rest) => a :: popAllGo fuel rest

/-- The sequence of entries obtained by repeatedly popping the pending
sorted set until it is empty: the order in which repeated `dequeue()`
serves the jobs. -/
def popAll (l : List (Nat × Int)) : List (Nat × Int) := popAllGo l.length l

theorem popAllGo_perm {fuel : Nat} {l : List (Nat × Int)}
    (h : l.length ≤ fuel) : (popAllGo fuel l).Perm l := by
  induction fuel generalizing l with
  | zero =>
    have : l = [] := List.length_eq_zero.mp (Nat.le_zero.mp h)
    subst this
    simp [popAllGo]
  | succ fuel ih =>
    simp only [popAllGo]
    cases hpop : zpopmin l with
    | none =>
      obtain rfl : l = [] := zpopmin_eq_none.mp hpop
      simp
    | some p =>
      obtain ⟨a, rest⟩ := p
      have hlen := zpopmin_length hpop
      have hrest : rest.length ≤ fuel := by omega
      exact ((ih hrest).cons a).trans (zpopmin_perm hpop).symm

theorem popAllGo_pairwise {fuel : Nat} {l : List (Nat × Int)}
    (h : l.length ≤ fuel) :
    (popAllGo fuel l).Pairwise (fun a b => lexLe (keyOf a) (keyOf b)) := by
  induction fuel generalizing l with
  | zero => simp [popAllGo]
  | succ fuel ih =>
    simp only [popAllGo]
    cases hpop : zpopmin l with
    | none => simp
    | some p =>
      obtain ⟨a, rest⟩ := p
      have hlen := zpopmin_length hpop
      have hrest : rest.length ≤ fuel := by omega
      refine List.Pairwise.cons ?_ (ih hrest)
      intro b hb
      have hbr : b ∈ rest := (popAllGo_perm hrest).mem_iff.mp hb
      have hbl : b ∈ l := (zpopmin_perm hpop).mem_iff.mpr (List.mem_cons_of_mem a hbr)
      exact zpopmin_min hpop b hbl

theorem popAll_perm (l : List (Nat × Int)) : (popAll l).Perm l :=
  popAllGo_perm (Nat.le_refl _)

theorem popAll_pairwise (l : List (Nat × Int)) :
    (popAll l).Pairwise (fun a b => lexLe (keyOf a) (keyOf b)) :=
  popAllGo_pairwise (Nat.le_refl _)

/-- In a `Pairwise R` list, an element that `R`-precedes another strictly
occurs at a strictly earlier position. -/
theorem pairwise_before {α : Type} {R : α → α → Prop} {l : List α} {a b : α}
    (hpw : l.Pairwise R) (ha : a ∈ l) (hb : b ∈ l) (hnab : a ≠ b)
    (hnR : ¬ R b a) :
    ∃ i j : Fin l.length, i < j ∧ l.get i = a ∧ l.get j = b := by
  obtain ⟨i, hi⟩ := List.mem_iff_get.mp ha
  obtain ⟨j, hj⟩ := List.mem_iff_get.mp hb
  have hij : i ≠ j := by
    rintro rfl
    exact hnab (hi.symm.trans hj)
  rcases lt_or_gt_of_ne hij with hlt | hgt
  · exact ⟨i, j, hlt, hi, hj⟩
  · have := List.pairwise_iff_get.mp hpw j i hgt
    rw [hi, hj] at this
    exact absurd this hnR

/-! ### Enqueue sequences (C5) -/

/-- One `enqueue` call of a dedup-free sequence: job id (`uuid4`), URL,
platform, options, priority and the arrival timestamp `now`. -/
structure EnqReq where
  rid : Nat
  url : String
  pf : Option String
  opts : String
  prio : Nat
  t : Nat
deriving DecidableEq

/-- Run a sequence of `enqueue` calls with `deduplicate=False`. -/
def enqueueAll (hash : String → String) (reqs : List EnqReq) (s : QueueState) :
    QueueState :=
  reqs.foldl
    (fun st r => (enqueue hash r.rid r.t r.url r.pf r.opts r.prio false st).2) s

/-- The pending-set entry an enqueue call creates. -/
def entryOf (r : EnqReq) : Nat × Int := (r.rid, score r.prio r.t)

theorem enqueueAll_pending (hash : String → String) (reqs : List EnqReq)
    (s : QueueState) :
    (enqueueAll hash reqs s).pending =
      reqs.foldl (fun pl r => zadd r.rid (score r.prio r.t) pl) s.pending := by
  induction reqs generalizing s with
  | nil => rfl
  | cons r rs ih =>
    simp only [enqueueAll, List.foldl_cons] at *
    rw [ih]
    rfl

theorem zadd_not_mem {m : Nat} {l : List (Nat × Int)} (sc : Int)
    (h : m ∉ l.map Prod.fst) : zadd m sc l = l ++ [(m, sc)] := by
  induction l with
  | nil => rfl
  | cons x xs ih =>
    simp only [List.map_cons, List.mem_cons] at h
    push_neg at h
    simp only [zadd]
    rw [if_neg (fun he => h.1 he.symm), ih h.2]
    rfl

theorem foldl_zadd (reqs : List EnqReq) (pl : List (Nat × Int))
    (h : ∀ r ∈ reqs, r.rid ∉ pl.map Prod.fst)
    (hnd : reqs.Pairwise (fun a b => a.rid ≠ b.rid)) :
    reqs.foldl (fun pl r => zadd r.rid (score r.prio r.t) pl) pl =
      pl ++ reqs.map entryOf := by
  induction reqs generalizing pl with
  | nil => simp
  | cons r rs ih =>
    simp only [List.foldl_cons]
    rw [zadd_not_mem _ (h r (List.mem_cons_self r rs))]
    rw [show (r.rid, score r.prio r.t) = entryOf r from rfl]
    rw [ih (pl ++ [entryOf r])]
    · simp
    · intro r' hr'
      simp only [List.map_append, List.mem_append]
      push_neg
      refine ⟨h r' (List.mem_cons_of_mem r hr'), ?_⟩
      have : r.rid ≠ r'.rid := (List.pairwise_cons.mp hnd).1 r' hr'
      simp [entryOf, this.symm]
    · exact (List.pairwise_cons.mp hnd).2

theorem enqueueAll_pending_init (hash : String → String) (reqs : List EnqReq)
    (hnd : reqs.Pairwise (fun a b => a.rid ≠ b.rid)) :
    (enqueueAll hash reqs initState).pending = reqs.map entryOf := by
  rw [enqueueAll_pending]
  have := foldl_zadd reqs [] (by simp) hnd
  simpa [initState] using this

theorem score_lt_same_prio {p t1 t2 : Nat} (h : t1 < t2) :
    score p t1 < score p t2 := by
  unfold score
  have : (t1 : Int) < (t2 : Int) := by exact_mod_cast h
  omega

theorem score_lt_cross {p1 p2 t1 t2 : Nat} (hp : p1 < p2) (hp2 : p2 ≤ 10)
    (ht2 : t2 < 10 ^ 12) : score p2 t2 < score p1 t1 := by
  unfold score
  have h1 : (p1 : Int) < (p2 : Int) := by exact_mod_cast hp
  have h2 : (p2 : Int) ≤ 10 := by exact_mod_cast hp2
  have h3 : (t2 : Int) < 10 ^ 12 := by exact_mod_cast ht2
  have h4 : (0 : Int) ≤ (t1 : Int) := Int.natCast_nonneg t1
  have h5 : ((10 : Int) - p2) + 1 ≤ 10 - p1 := by omega
  have hT : (0 : Int) < 10 ^ 12 := by norm_num
  calc ((10 : Int) - p2) * 10 ^ 12 + t2
      < ((10 : Int) - p2) * 10 ^ 12 + 10 ^ 12 := by omega
    _ = (((10 : Int) - p2) + 1) * 10 ^ 12 := by ring
    _ ≤ ((10 : Int) - p1) * 10 ^ 12 :=
        mul_le_mul_of_nonneg_right h5 (le_of_lt hT)
    _ ≤ ((10 : Int) - p1) * 10 ^ 12 + t1 := by omega

theorem lexLe_snd {a b : Nat × Int} (h : lexLe (keyOf a) (keyOf b)) :
    a.2 ≤ b.2 := by
  unfold lexLe keyOf at h
  dsimp at h
  omega

theorem not_lexLe_of_snd_lt {a b : Nat × Int} (h : b.2 < a.2) :
    ¬ lexLe (keyOf a) (keyOf b) := by
  unfold lexLe keyOf
  dsimp
  omega

/-- The order in which repeated `dequeue()` drains the pending sorted set
produced by a dedup-free sequence of `enqueue` calls. -/
def dequeueOrder (hash : String → String) (reqs : List EnqReq) :
    List (Nat × Int) :=
  popAll (enqueueAll hash reqs initState).pending

/-- C5: for every sequence of enqueue calls without deduplication (fresh
uuid ids, strictly increasing arrival timestamps below 1e12, priorities in
0..10), repeated `dequeue()` returns jobs in non-decreasing score order,
where `score = (10 - priority) * 10^12 + arrival timestamp`; within one
priority class the earlier-enqueued job is dequeued first (FIFO), and a
higher-priority job enqueued later is dequeued before a lower-priority job
enqueued earlier. -/
theorem C5_dequeue_priority_fifo (hash : String → String) (reqs : List EnqReq)
    (hnd : reqs.Pairwise (fun a b => a.rid ≠ b.rid))
    (hp : ∀ r ∈ reqs, r.prio ≤ 10)
    (ht : ∀ r ∈ reqs, r.t < 10 ^ 12)
    (hmono : reqs.Pairwise (fun a b => a.t < b.t)) :
    (dequeueOrder hash reqs).Pairwise (fun a b => a.2 ≤ b.2)
    ∧ (∀ i j : Fin reqs.length, i < j →
        (reqs.get i).prio = (reqs.get j).prio →
        ∃ ii jj : Fin (dequeueOrder hash reqs).length, ii < jj ∧
          (dequeueOrder hash reqs).get ii = entryOf (reqs.get i) ∧
          (dequeueOrder hash reqs).get jj = entryOf (reqs.get j))
    ∧ (∀ i j : Fin reqs.length, i < j →
        (reqs.get i).prio < (reqs.get j).prio →
        ∃ ii jj : Fin (dequeueOrder hash reqs).length, ii < jj ∧
          (dequeueOrder hash reqs).get ii = entryOf (reqs.get j) ∧
          (dequeueOrder hash reqs).get jj = entryOf (reqs.get i)) := by
  have hpend := enqueueAll_pending_init hash reqs hnd
  have hpw : (dequeueOrder hash reqs).Pairwise
      (fun a b => lexLe (keyOf a) (keyOf b)) := popAll_pairwise _
  have hperm : (dequeueOrder hash reqs).Perm (reqs.map entryOf) := by
    unfold dequeueOrder
    rw [hpend]
    exact popAll_perm _
  have hmem : ∀ i : Fin reqs.length,
      entryOf (reqs.get i) ∈ dequeueOrder hash reqs := by
    intro i
    exact hperm.mem_iff.mpr
      (List.mem_map_of_mem entryOf (List.get_mem reqs i.1 i.2))
  refine ⟨?_, ?_, ?_⟩
  · exact hpw.imp (fun h => lexLe_snd h)
  · intro i j hij hprio
    have hti : (reqs.get i).t < (reqs.get j).t :=
      List.pairwise_iff_get.mp hmono i j hij
    have hsc : (entryOf (reqs.get i)).2 < (entryOf (reqs.get j)).2 := by
      simp only [entryOf]
      rw [hprio]
      exact score_lt_same_prio hti
    have hrid : (reqs.get i).rid ≠ (reqs.get j).rid :=
      List.pairwise_iff_get.mp hnd i j hij
    have hne : entryOf (reqs.get i) ≠ entryOf (reqs.get j) := by
      intro h
      exact hrid (congrArg Prod.fst h)
    exact pairwise_before hpw (hmem i) (hmem j) hne (not_lexLe_of_snd_lt hsc)
  · intro i j hij hprio
    have hsc : (entryOf (reqs.get j)).2 < (entryOf (reqs.get i)).2 := by
      simp only [entryOf]
      exact score_lt_cross hprio (hp _ (List.get_mem reqs j.1 j.2))
        (ht _ (List.get_mem reqs j.1 j.2))
    have hrid : (reqs.get i).rid ≠ (reqs.get j).rid :=
      List.pairwise_iff_get.mp hnd i j hij
    have hne : entryOf (reqs.get j) ≠ entryOf (reqs.get i) := by
      intro h
      exact hrid (congrArg Prod.fst h).symm
    exact pairwise_before hpw (hmem j) (hmem i) hne (not_lexLe_of_snd_lt hsc)

def c5reqs : List EnqReq :=
  [⟨1, "https://a/x", none, "p", 3, 0⟩,
   ⟨2, "https://b/y", none, "p", 8, 1⟩,
   ⟨3, "https://c/z", none, "p", 8, 2⟩]

theorem C5_dequeue_priority_fifo_witness :
    (c5reqs.Pairwise (fun a b => a.rid ≠ b.rid)
      ∧ (∀ r ∈ c5reqs, r.prio ≤ 10)
      ∧ (∀ r ∈ c5reqs, r.t < 10 ^ 12)
      ∧ c5reqs.Pairwise (fun a b => a.t < b.t))
    ∧ ((dequeueOrder (fun _ => "h") c5reqs).Pairwise (fun a b => a.2 ≤ b.2)
    ∧ (∀ i j : Fin c5reqs.length, i < j →
        (c5reqs.get i).prio = (c5reqs.get j).prio →
        ∃ ii jj : Fin (dequeueOrder (fun _ => "h") c5reqs).length, ii < jj ∧
          (dequeueOrder (fun _ => "h") c5reqs).get ii = entryOf (c5reqs.get i) ∧
          (dequeueOrder (fun _ => "h") c5reqs).get jj = entryOf (c5reqs.get j))
    ∧ (∀ i j : Fin c5reqs.length, i < j →
        (c5reqs.get i).prio < (c5reqs.get j).prio →
        ∃ ii jj : Fin (dequeueOrder (fun _ => "h") c5reqs).length, ii < jj ∧
          (dequeueOrder (fun _ => "h") c5reqs).get ii = entryOf (c5reqs.get j) ∧
          (dequeueOrder (fun _ => "h") c5reqs).get jj = entryOf (c5reqs.get i))) :=
  ⟨⟨by decide, by decide, by decide, by decide⟩,
    C5_dequeue_priority_fifo (fun _ => "h") c5reqs
      (by decide) (by decide) (by decide) (by decide)⟩

/-! ### Hash-store lemmas -/

theorem lookupJob_setJob_self (k : Nat) (f : JobRecord → JobRecord)
    (jobs : List (Nat × JobRecord)) :
    lookupJob k (setJob k f jobs) =
      some (f ((lookupJob k jobs).getD emptyJob)) := by
  induction jobs with
  | nil => simp [setJob, lookupJob]
  | cons x xs ih =>
    obtain ⟨k', v⟩ := x
    by_cases h : k' = k
    · subst h
      simp [setJob, lookupJob]
    · simp [setJob, lookupJob, h, ih]

theorem lookupJob_setJob_ne {k' k : Nat} (h : k' ≠ k)
    (f : JobRecord → JobRecord) (jobs : List (Nat × JobRecord)) :
    lookupJob k (setJob k' f jobs) = lookupJob k jobs := by
  induction jobs with
  | nil => simp [setJob, lookupJob, h]
  | cons x xs ih =>
    obtain ⟨k'', v⟩ := x
    by_cases h2 : k'' = k'
    · subst h2
      simp [setJob, lookupJob, h]
    · by_cases h3 : k'' = k
      · subst h3
        simp [setJob, lookupJob, h2]
      · simp [setJob, lookupJob, h2, h3, ih]

theorem zadd_mem_self (m : Nat) (sc : Int) (l : List (Nat × Int)) :
    (m, sc) ∈ zadd m sc l := by
  induction l with
  | nil => simp [zadd]
  | cons x xs ih =>
    obtain ⟨m', s'⟩ := x
    by_cases h : m' = m
    · simp [zadd, h]
    · simp only [zadd, if_neg h]
      exact List.mem_cons_of_mem _ ih

/-- The `status` field of a stored job hash. -/
def statusOf (s : QueueState) (jid : Nat) : Option String :=
  (lookupJob jid s.jobs).bind JobRecord.status

/-! ### C2: retry trajectory -/

/-- The state chain of scenario: enqueue one job with default priority 5 and
dedup, then alternate `dequeue` / `fail(retry=True)` as the worker does when
the handler keeps returning a failure result. -/
def c2chain (hash : String → String) (jid : Nat) (url opts err : String)
    (t0 t1 t2 t3 t4 t5 t6 t7 t8 : Nat) : List QueueState :=
  let s1 := (enqueue hash jid t0 url none opts 5 true initState).2
  let s2 := (dequeue t1 s1).2
  let s3 := fail t2 jid err true s2
  let s4 := (dequeue t3 s3).2
  let s5 := fail t4 jid err true s4
  let s6 := (dequeue t5 s5).2
  let s7 := fail t6 jid err true s6
  let s8 := (dequeue t7 s7).2
  let s9 := fail t8 jid err true s8
  [s1, s2, s3, s4, s5, s6, s7, s8, s9]

set_option maxHeartbeats 2000000 in
/-- C2 (amended): for a job enqueued with the default `max_retries` of 3
whose handler fails on every attempt (the worker calling `fail` with
`retry=True` each time), the status trajectory is pending → processing →
pending → processing → pending → processing → pending → processing →
failed — FOUR processing attempts (the initial attempt plus three
retries) before permanent failure, not three — and `total_failed` is
incremented exactly once, by the final fail call. -/
theorem C2_amended_retry_trajectory (hash : String → String) (jid : Nat) (url opts err : String)
    (t0 t1 t2 t3 t4 t5 t6 t7 t8 : Nat) :
    (c2chain hash jid url opts err t0 t1 t2 t3 t4 t5 t6 t7 t8).map
        (fun s => statusOf s jid) =
      [some "pending", some "processing", some "pending", some "processing",
       some "pending", some "processing", some "pending", some "processing",
       some "failed"]
    ∧ (c2chain hash jid url opts err t0 t1 t2 t3 t4 t5 t6 t7 t8).map
        QueueState.totalFailed = [0, 0, 0, 0, 0, 0, 0, 0, 1] := by
  simp [c2chain, enqueue, dequeue, fail, statusOf, lookupJob, setJob, zpopmin,
    zadd, sadd, fpGet, fpSet, initState, emptyJob, score, JOB_TTL]

def c2cx : List QueueState :=
  c2chain (fun _ => "h") 1 "https://u" "o" "transient" 0 1 2 3 4 5 6 7 8

/-- C2 (counterexample): in the concrete run of the claimed scenario, after
the third fail call — the point at which the claim says the job is `failed`
with `total_failed = 1` — the stored status is still `pending` and
`total_failed` is 0; the code performs a fourth processing attempt. -/
theorem C2_counterexample :
    statusOf (c2cx.get ⟨6, by decide⟩) 1 = some "pending"
    ∧ statusOf (c2cx.get ⟨6, by decide⟩) 1 ≠ some "failed"
    ∧ (c2cx.get ⟨6, by decide⟩).totalFailed = 0 := by
  decide

/-! ### C3: double complete -/

/-- C3 (amended): `complete(id, r)` called twice on the same id is NOT a
no-op: the source has no `id in active` guard, so the second call
increments `total_completed` a second time, prepends the id to the
completed log again (trimmed to 1000) and rewrites the job hash; only the
removal from the active set has no further effect. -/
theorem C3_amended_double_complete (s : QueueState) (jid : Nat) (r : String)
    (now1 now2 : Nat) :
    (complete now2 jid r (complete now1 jid r s)).totalCompleted =
        s.totalCompleted + 2
    ∧ (complete now2 jid r (complete now1 jid r s)).completedLog =
        (jid :: (jid :: s.completedLog).take 1000).take 1000
    ∧ statusOf (complete now2 jid r (complete now1 jid r s)) jid =
        some "completed" := by
  refine ⟨rfl, rfl, ?_⟩
  simp [complete, statusOf, lookupJob_setJob_self]

def c3base : QueueState :=
  (dequeue 1 (enqueue (fun _ => "h") 1 0 "https://u" none "o" 5 true
    initState).2).2

def c3one : QueueState := complete 2 1 "res" c3base

def c3two : QueueState := complete 2 1 "res" c3one

/-- C3 (counterexample): completing the same job twice (even at the same
timestamp) leaves a state different from the state after the first call:
`total_completed` is 2 instead of 1 and the completed log holds the id
twice, refuting the claimed no-op. -/
theorem C3_counterexample :
    c3two ≠ c3one
    ∧ c3one.totalCompleted = 1
    ∧ c3two.totalCompleted = 2
    ∧ c3two.completedLog = [1, 1] := by
  decide

/-! ### C7: retry-count invariant -/

/-- Every stored job hash has `retry_count` (default 0) at most
`max_retries` (default 3). -/
def retryInvariant (s : QueueState) : Prop :=
  ∀ jid jrec, lookupJob jid s.jobs = some jrec →
    jrec.retryCount.getD 0 ≤ jrec.maxRetries.getD 3

theorem retryInvariant_of_jobs {s t : QueueState} (h : t.jobs = s.jobs)
    (hs : retryInvariant s) : retryInvariant t := by
  intro jid jrec hlk
  rw [h] at hlk
  exact hs jid jrec hlk

theorem retryInvariant_setJob {s : QueueState} (hs : retryInvariant s)
    (t : QueueState) (k : Nat) (f : JobRecord → JobRecord)
    (ht : t.jobs = setJob k f s.jobs)
    (hf : (f ((lookupJob k s.jobs).getD emptyJob)).retryCount.getD 0 ≤
          (f ((lookupJob k s.jobs).getD emptyJob)).maxRetries.getD 3) :
    retryInvariant t := by
  intro jid jrec hlk
  rw [ht] at hlk
  by_cases hk : k = jid
  · subst hk
    rw [lookupJob_setJob_self] at hlk
    cases hlk
    exact hf
  · rw [lookupJob_setJob_ne hk] at hlk
    exact hs jid jrec hlk

theorem retryInvariant_old {s : QueueState} (hs : retryInvariant s) (k : Nat) :
    ((lookupJob k s.jobs).getD emptyJob).retryCount.getD 0 ≤
      ((lookupJob k s.jobs).getD emptyJob).maxRetries.getD 3 := by
  cases hlk : lookupJob k s.jobs with
  | none => simp [emptyJob]
  | some jrec => simpa using hs k jrec hlk

theorem retryInvariant_applyOp (hash : String → String) (op : QOp)
    {s : QueueState} (hs : retryInvariant s) :
    retryInvariant (applyOp hash op s) := by
  cases op with
  | enq newId now url pf opts prio dedup =>
    simp only [applyOp, enqueue]
    split
    · exact hs
    · exact retryInvariant_setJob hs _ newId _ rfl (by simp)
  | deq now =>
    simp only [applyOp, dequeue]
    by_cases hp : s.paused
    · simp only [hp, if_true]
      exact hs
    · simp only [hp, Bool.false_eq_true, if_false]
      cases hpop : zpopmin s.pending with
      | none => exact hs
      | some p =>
        obtain ⟨⟨jid0, sc0⟩, rest⟩ := p
        simp only
        cases hlk : lookupJob jid0 s.jobs with
        | none => exact retryInvariant_of_jobs rfl hs
        | some jrec0 =>
          exact retryInvariant_setJob hs _ jid0 _ rfl
            (by simpa using retryInvariant_old hs jid0)
  | comp now jid r =>
    exact retryInvariant_setJob hs _ jid _ rfl
      (by simpa using retryInvariant_old hs jid)
  | flop now jid err retry =>
    simp only [applyOp, fail]
    split
    · rename_i hguard
      refine retryInvariant_setJob hs _ jid _ rfl ?_
      simp only [Bool.and_eq_true, decide_eq_true_eq] at hguard
      have := retryInvariant_old hs jid
      simp only [Option.getD_some]
      simp
      omega
    · exact retryInvariant_setJob hs _ jid _ rfl
        (by simpa using retryInvariant_old hs jid)
  | upd jid p spd eta =>
    exact retryInvariant_setJob hs _ jid _ rfl
      (by simpa using retryInvariant_old hs jid)
  | pauseOp => exact retryInvariant_of_jobs rfl hs
  | resumeOp => exact retryInvariant_of_jobs rfl hs
  | clearCompletedOp => exact retryInvariant_of_jobs rfl hs

theorem retryInvariant_foldl (hash : String → String) (ops : List QOp)
    {s : QueueState} (hs : retryInvariant s) :
    retryInvariant (ops.foldl (fun s op => applyOp hash op s) s) := by
  induction ops generalizing s with
  | nil => exact hs
  | cons op rest ih => exact ih (retryInvariant_applyOp hash op hs)

theorem retryInvariant_runOps (hash : String → String) (ops : List QOp) :
    retryInvariant (runOps hash ops) := by
  refine retryInvariant_foldl hash ops ?_
  intro jid jrec h
  simp [initState, lookupJob] at h

def c7base : QueueState :=
  (dequeue 1 (enqueue (fun _ => "h") 1 0 "https://u" none "o" 5 true
    initState).2).2

def c7perm : QueueState := fail 2 1 "boom" false c7base

/-- C7 (counterexample): a job dead-lettered by a `fail` call with
`retry=False` on its first attempt reaches the failed log with
`retry_count` 0 while its effective `max_retries` is 3, refuting the claim
that every permanently failed job has `retry_count = max_retries`. -/
theorem C7_counterexample :
    c7perm.failedLog = [1]
    ∧ ((lookupJob 1 c7perm.jobs).getD emptyJob).status = some "failed"
    ∧ ((lookupJob 1 c7perm.jobs).getD emptyJob).retryCount.getD 0 = 0
    ∧ ((lookupJob 1 c7perm.jobs).getD emptyJob).maxRetries.getD 3 = 3
    ∧ ((lookupJob 1 c7perm.jobs).getD emptyJob).retryCount.getD 0 ≠
        ((lookupJob 1 c7perm.jobs).getD emptyJob).maxRetries.getD 3 := by
  decide

/-- C7 (amended): when a `fail` call with `retry=True` takes the permanent
branch (observable as `total_failed` being incremented) on any state
reachable by queue operations, the job's `retry_count` at that moment
equals its `max_retries`; a `fail` with `retry=False` can dead-letter a job
with a smaller retry count. -/
theorem C7_amended_retry_exhaustion (hash : String → String) (ops : List QOp)
    (now jid : Nat) (err : String)
    (h : (fail now jid err true (runOps hash ops)).totalFailed =
         (runOps hash ops).totalFailed + 1) :
    ((lookupJob jid (runOps hash ops).jobs).getD emptyJob).retryCount.getD 0 =
      ((lookupJob jid (runOps hash ops).jobs).getD emptyJob).maxRetries.getD 3
    := by
  have hinv := retryInvariant_runOps hash ops
  have hle := retryInvariant_old hinv jid
  by_cases hlt :
      ((lookupJob jid (runOps hash ops).jobs).getD emptyJob).retryCount.getD 0 <
      ((lookupJob jid (runOps hash ops).jobs).getD emptyJob).maxRetries.getD 3
  · exfalso
    simp only [fail] at h
    rw [if_pos (by simp [hlt])] at h
    simp only at h
    omega
  · omega

def c7ops : List QOp :=
  [.enq 1 0 "https://u" none "o" 5 true, .deq 1, .flop 2 1 "e" true,
   .deq 3, .flop 4 1 "e" true, .deq 5, .flop 6 1 "e" true, .deq 7]

theorem C7_amended_retry_exhaustion_witness :
    ((fail 8 1 "e" true (runOps (fun _ => "h") c7ops)).totalFailed =
      (runOps (fun _ => "h") c7ops).totalFailed + 1)
    ∧ ((lookupJob 1 (runOps (fun _ => "h") c7ops).jobs).getD
          emptyJob).retryCount.getD 0 =
      ((lookupJob 1 (runOps (fun _ => "h") c7ops).jobs).getD
          emptyJob).maxRetries.getD 3 :=
  ⟨by decide, C7_amended_retry_exhaustion (fun _ => "h") c7ops 8 1 "e"
    (by decide)⟩

/-! ### C9: fingerprint lifetime -/

/-- Whether an operation is a `complete` or `fail` call. -/
def isTerminalOp : QOp → Bool
  | .comp _ _ _ => true
  | .flop _ _ _ _ => true
  | _ => false

theorem fingerprints_applyOp_terminal (hash : String → String) (op : QOp)
    (s : QueueState) (h : isTerminalOp op = true) :
    (applyOp hash op s).fingerprints = s.fingerprints := by
  cases op with
  | comp now jid r => rfl
  | flop now jid err retry =>
    simp only [applyOp, fail]
    split <;> rfl
  | enq newId now url pf opts prio dedup => simp [isTerminalOp] at h
  | deq now => simp [isTerminalOp] at h
  | upd jid p spd eta => simp [isTerminalOp] at h
  | pauseOp => simp [isTerminalOp] at h
  | resumeOp => simp [isTerminalOp] at h
  | clearCompletedOp => simp [isTerminalOp] at h

theorem fingerprints_foldl_terminal (hash : String → String) (ops : List QOp)
    {s : QueueState} (h : ∀ op ∈ ops, isTerminalOp op = true) :
    (ops.foldl (fun s op => applyOp hash op s) s).fingerprints =
      s.fingerprints := by
  induction ops generalizing s with
  | nil => rfl
  | cons op rest ih =>
    rw [List.foldl_cons, ih (fun o ho => h o (List.mem_cons_of_mem op ho)),
      fingerprints_applyOp_terminal hash op s (h op (List.mem_cons_self op rest))]

theorem enqueue_dedup_none (hash : String → String) (newId now : Nat)
    (url : String) (pf : Option String) (opts : String) (prio : Nat)
    (s : QueueState) (h : (fpGet (hash url) now s.fingerprints).isSome = true) :
    (enqueue hash newId now url pf opts prio true s).1 = none := by
  simp [enqueue, h]

/-- C9: enqueueing a URL with `deduplicate=True` writes the fingerprint key
with the full 7-day job TTL; `complete` and `fail` never remove it; hence a
second dedup enqueue of the same URL within the TTL window returns null
even after the first job reached a terminal status. -/
theorem C9_fingerprint_survives_terminal (hash : String → String)
    (jid jid2 t1 t2 : Nat) (url : String) (pf pf2 : Option String)
    (opts opts2 : String) (prio prio2 : Nat) (ops : List QOp)
    (hops : ∀ op ∈ ops, isTerminalOp op = true)
    (ht : t2 < t1 + JOB_TTL) :
    ((enqueue hash jid t1 url pf opts prio true initState).2).fingerprints =
        [(hash url, jid, t1 + JOB_TTL)]
    ∧ (ops.foldl (fun s op => applyOp hash op s)
        (enqueue hash jid t1 url pf opts prio true initState).2).fingerprints =
        [(hash url, jid, t1 + JOB_TTL)]
    ∧ (enqueue hash jid2 t2 url pf2 opts2 prio2 true
        (ops.foldl (fun s op => applyOp hash op s)
          (enqueue hash jid t1 url pf opts prio true initState).2)).1 =
        none := by
  have h1 : ((enqueue hash jid t1 url pf opts prio true
      initState).2).fingerprints = [(hash url, jid, t1 + JOB_TTL)] := by
    simp [enqueue, initState, fpGet, fpSet]
  have h2 : (ops.foldl (fun s op => applyOp hash op s)
      (enqueue hash jid t1 url pf opts prio true initState).2).fingerprints =
      [(hash url, jid, t1 + JOB_TTL)] := by
    rw [fingerprints_foldl_terminal hash ops hops, h1]
  refine ⟨h1, h2, ?_⟩
  apply enqueue_dedup_none
  rw [h2]
  simp [fpGet, ht]

theorem C9_fingerprint_survives_terminal_witness :
    ((∀ op ∈ ([QOp.comp 150 1 "r"] : List QOp), isTerminalOp op = true)
      ∧ 200 < 100 + JOB_TTL)
    ∧ (((enqueue (fun _ => "h") 1 100 "u" none "o" 5 true
          initState).2).fingerprints = [("h", 1, 100 + JOB_TTL)]
    ∧ (([QOp.comp 150 1 "r"] : List QOp).foldl
        (fun s op => applyOp (fun _ => "h") op s)
        (enqueue (fun _ => "h") 1 100 "u" none "o" 5 true
          initState).2).fingerprints = [("h", 1, 100 + JOB_TTL)]
    ∧ (enqueue (fun _ => "h") 2 200 "u" none "o" 5 true
        (([QOp.comp 150 1 "r"] : List QOp).foldl
          (fun s op => applyOp (fun _ => "h") op s)
          (enqueue (fun _ => "h") 1 100 "u" none "o" 5 true
            initState).2)).1 = none) :=
  ⟨⟨by decide, by decide⟩,
    C9_fingerprint_survives_terminal (fun _ => "h") 1 2 100 200 "u" none none
      "o" "o" 5 5 [QOp.comp 150 1 "r"] (by decide) (by decide)⟩

/-! ### C10: fail on an unknown job id -/

/-- C10: calling `fail(job_id, error, retry=True)` for an id with no stored
job hash is not a no-op: `hgetall` yields the empty hash, the defaults
`retry_count=0 < max_retries=3` take the retry branch, and `hset` creates a
fresh hash holding only status `pending`, `retry_count` 1, priority 4
(`max(0, 5-1)`) and `last_error`; the id is inserted into the pending
sorted set with score `(10-4)*1e12 + now`, so the phantom job becomes
dequeueable. -/
theorem C10_phantom_fail (now jid : Nat) (err : String) (s : QueueState)
    (h : lookupJob jid s.jobs = none) :
    lookupJob jid (fail now jid err true s).jobs =
      some { emptyJob with
        status := some "pending"
        retryCount := some 1
        priority := some 4
        lastError := some err }
    ∧ (jid, score 4 now) ∈ (fail now jid err true s).pending := by
  simp only [fail, h, Option.getD_none]
  rw [if_pos (by simp [emptyJob])]
  refine ⟨?_, ?_⟩
  · rw [lookupJob_setJob_self, h]
    rfl
  · simp only [emptyJob]
    exact zadd_mem_self jid _ s.pending

theorem C10_phantom_fail_witness :
    (lookupJob 42 initState.jobs = none)
    ∧ (lookupJob 42 (fail 7 42 "ghost" true initState).jobs =
        some { emptyJob with
          status := some "pending"
          retryCount := some 1
          priority := some 4
          lastError := some "ghost" }
      ∧ (42, score 4 7) ∈ (fail 7 42 "ghost" true initState).pending) :=
  ⟨by decide, C10_phantom_fail 7 42 "ghost" initState (by decide)⟩

/-! ## Download engine (app/core/download_engine.py) -/

/-- Result of the HEAD probe `get_remote_info`: `size` from
`Content-Length` (0 if unknown), `accepts_ranges` iff the header
`Accept-Ranges` equals `bytes`. -/
structure RemoteInfo where
  size : Nat
  acceptsRanges : Bool
deriving DecidableEq

/-- The GET response: status code and the streamed body bytes (for a 206
the server sends the suffix, for a 200 the whole resource — the code never
distinguishes the two). -/
structure HttpResponse where
  status : Nat
  body : List Nat
deriving DecidableEq

/-- Model of `DownloadResult` (success, file_size, checksum, error, resumed); the
path and duration fields are omitted. -/
structure FetchResult where
  success : Bool
  fileSize : Nat
  checksum : Option String
  error : Option String
  resumed : Bool
deriving DecidableEq

/-- Size `dest_path.stat().st_size` when the destination exists, else 0. -/
def existingSize (dest : Option (List Nat)) : Nat := (dest.getD []).length

/-- The `resumed` flag: a partial file exists, the server advertises
ranges, and the partial file is shorter than the probed size. -/
def resumedFlag (dest : Option (List Nat)) (info : RemoteInfo) : Bool :=
  decide (0 < existingSize dest) && info.acceptsRanges &&
    decide (existingSize dest < info.size)

/-- The already-complete early return: a file exists with exactly the
probed size and the server advertises ranges. -/
def alreadyComplete (dest : Option (List Nat)) (info : RemoteInfo) : Bool :=
  decide (0 < existingSize dest) && info.acceptsRanges &&
    decide (existingSize dest = info.size)

/-- Bytes on disk after the streaming loop: the file is opened in append
mode (`ab`) iff `resumed`, write mode (`wb`) otherwise, and the whole
response body is written. -/
def finalContent (dest : Option (List Nat)) (info : RemoteInfo)
    (resp : HttpResponse) : List Nat :=
  if resumedFlag dest info then dest.getD [] ++ resp.body else resp.body

/-- The `downloaded` byte counter: it starts at `existing_size`, which the
code resets to 0 only when the outer resume condition
(`existing_size > 0 and accepts_ranges`) is false. -/
def downloadedCount (dest : Option (List Nat)) (info : RemoteInfo)
    (resp : HttpResponse) : Nat :=
  (if decide (0 < existingSize dest) && info.acceptsRanges then
    existingSize dest else 0) + resp.body.length

/-- Model of `DownloadEngine.download_file`.  Here `digest` stands for SHA-256 hex; the
second component is the destination file content afterwards (`dest`
untouched when the function returns before opening the file).
`raise_for_status` is modelled as status ≥ 400 raising `httpx.HTTPError`;
the code never checks whether a ranged request was answered with 206 or
200.  A supplied `verify_checksum` is compared only on the streaming path
(Python truthiness: the empty string disables the check). -/
def download_file (digest : List Nat → String) (dest : Option (List Nat))
    (info : RemoteInfo) (resp : HttpResponse)
    (verifyChecksum : Option String) : FetchResult × Option (List Nat) :=
  if alreadyComplete dest info then
    (⟨true, info.size, some (digest (dest.getD [])), none, true⟩, dest)
  else if 400 ≤ resp.status then
    (⟨false, 0, none, some "HTTP error", resumedFlag dest info⟩, dest)
  else
    let content := finalContent dest info resp
    let cs := digest content
    let dl := downloadedCount dest info resp
    match verifyChecksum with
    | some v =>
      if v ≠ "" ∧ cs ≠ v then
        (⟨false, dl, some cs, some "Checksum verification failed",
          resumedFlag dest info⟩, some content)
      else
        (⟨true, dl, some cs, none, resumedFlag dest info⟩, some content)
    | none => (⟨true, dl, some cs, none, resumedFlag dest info⟩, some content)

def c1dest : List Nat := [1, 2, 3]

def c1body : List Nat := [0, 1, 2, 3, 4, 5, 6, 7, 8, 9]

/-- C1: with a 3-byte partial file, a probed size of 10 and
`Accept-Ranges: bytes`, the engine issues a ranged request; when the server
answers 200 with the full 10-byte body, the code appends the whole body to
the partial file (13 bytes on disk, `resumed=true`) instead of overwriting
from offset zero as the specification requires. -/
theorem C1_ranged_200_appends :
    (download_file (fun _ => "d") (some c1dest) ⟨10, true⟩ ⟨200, c1body⟩
        none).2 = some (c1dest ++ c1body)
    ∧ (download_file (fun _ => "d") (some c1dest) ⟨10, true⟩ ⟨200, c1body⟩
        none).1.resumed = true
    ∧ (download_file (fun _ => "d") (some c1dest) ⟨10, true⟩ ⟨200, c1body⟩
        none).2 ≠ some c1body := by
  decide

/-- C4 (counterexample): when the destination already has exactly the
probed remote size, the early return reports success and the recomputed
checksum without ever comparing it to the supplied expected digest — here
the on-disk digest is "aa", the expected digest "bb", and the result still
has `success=true`. -/
theorem C4_counterexample :
    (download_file (fun _ => "aa") (some [1, 2, 3]) ⟨3, true⟩ ⟨200, []⟩
        (some "bb")).1.success = true
    ∧ (download_file (fun _ => "aa") (some [1, 2, 3]) ⟨3, true⟩ ⟨200, []⟩
        (some "bb")).1.checksum = some "aa"
    ∧ ("aa" : String) ≠ "bb" := by
  decide

/-- C4 (amended): on the streaming path (destination absent, shorter or
longer than the probed size, or ranges unsupported) with a non-error
status, a supplied non-empty expected digest that differs from the digest
of the final on-disk bytes yields `success=false` with the
checksum-verification error, and the file is left on disk; the
already-complete early return, by contrast, never performs this check. -/
theorem C4_amended_digest_mismatch (digest : List Nat → String)
    (dest : Option (List Nat)) (info : RemoteInfo) (resp : HttpResponse)
    (v : String)
    (hnc : alreadyComplete dest info = false)
    (hst : resp.status < 400)
    (hv : v ≠ "")
    (hne : digest (finalContent dest info resp) ≠ v) :
    download_file digest dest info resp (some v) =
      (⟨false, downloadedCount dest info resp,
        some (digest (finalContent dest info resp)),
        some "Checksum verification failed", resumedFlag dest info⟩,
       some (finalContent dest info resp)) := by
  unfold download_file
  rw [if_neg (by simp [hnc]), if_neg (by omega)]
  simp only []
  rw [if_pos ⟨hv, hne⟩]

theorem C4_amended_digest_mismatch_witness :
    (alreadyComplete none ⟨5, false⟩ = false ∧ 200 < 400
      ∧ ("bb" : String) ≠ "" ∧ ("aa" : String) ≠ "bb")
    ∧ download_file (fun _ => "aa") none ⟨5, false⟩ ⟨200, [5]⟩ (some "bb") =
      (⟨false, downloadedCount none ⟨5, false⟩ ⟨200, [5]⟩,
        some "aa", some "Checksum verification failed",
        resumedFlag none ⟨5, false⟩⟩,
       some (finalContent none ⟨5, false⟩ ⟨200, [5]⟩)) :=
  ⟨⟨by decide, by decide, by decide, by decide⟩,
    C4_amended_digest_mismatch (fun _ => "aa") none ⟨5, false⟩ ⟨200, [5]⟩
      "bb" (by decide) (by decide) (by decide) (by decide)⟩

/-! ## Platform router and generic handler
(app/core/platform_router.py, app/platforms/handlers/generic.py)

Python strings are modelled as `List Char`. -/

/-- Python `str.startswith`. -/
def startsWithL : List Char → List Char → Bool
  | [], _ => true
  | _ :: _, [] => false
  | p :: ps, c :: cs => p = c && startsWithL ps cs

/-- Python `str.endswith`. -/
def endsWithL (p s : List Char) : Bool := startsWithL p.reverse s.reverse

/-- Python `str.lower`. -/
def lowerL (s : List Char) : List Char := s.map Char.toLower

/-- Everything before the first occurrence of `sep` (the `[0]` part of a
`split`). -/
def takeUntil (sep : Char) (s : List Char) : List Char :=
  s.takeWhile (fun c => c ≠ sep)

/-- Python `str.split(sep)` for a one-character separator. -/
def splitOnChar (sep : Char) : List Char → List (List Char)
  | [] => [[]]
  | c :: cs =>
    let r := splitOnChar sep cs
    if c = sep then [] :: r
    else
      match r with
      | [] => [[c]]
      | g :: gs => (c :: g) :: gs

/-- Python `"/".join`. -/
def joinSlash : List (List Char) → List Char
  | [] => []
  | [g] => g
  | g :: gs => g ++ '/' :: joinSlash gs

/-- Model of `urllib.parse.urlparse(url).path` for absolute http(s) URLs: the
fragment and query are cut off, the scheme and the authority (up to the
first slash after the scheme) are removed, and what remains is the
slash-prefixed path. -/
def urlPath (url : List Char) : List Char :=
  let noFrag := takeUntil '#' url
  let noQuery := takeUntil '?' noFrag
  let afterScheme :=
    if startsWithL "http://".data noQuery then noQuery.drop 7
    else if startsWithL "https://".data noQuery then noQuery.drop 8
    else noQuery
  match splitOnChar '/' afterScheme with
  | [] => []
  | _ :: rest => if rest.isEmpty then [] else '/' :: joinSlash rest

/-- Set `GenericHandler.DIRECT_EXTENSIONS` (a Python set; only membership is
ever used, so the enumeration order below is immaterial). -/
def DIRECT_EXTENSIONS : List (List Char) :=
  [".jpg".data, ".jpeg".data, ".png".data, ".gif".data, ".webp".data,
   ".svg".data, ".bmp".data, ".ico".data,
   ".mp4".data, ".webm".data, ".mkv".data, ".avi".data, ".mov".data,
   ".flv".data, ".wmv".data, ".m4v".data,
   ".mp3".data, ".wav".data, ".flac".data, ".aac".data, ".ogg".data,
   ".m4a".data, ".wma".data,
   ".pdf".data, ".doc".data, ".docx".data, ".xls".data, ".xlsx".data,
   ".ppt".data, ".pptx".data,
   ".zip".data, ".rar".data, ".7z".data, ".tar".data, ".gz".data,
   ".bz2".data,
   ".json".data, ".xml".data, ".csv".data, ".txt".data, ".md".data,
   ".safetensors".data, ".ckpt".data, ".pt".data, ".pth".data,
   ".bin".data, ".onnx".data]

/-- Model of `PlatformInfo` (confidence, a float constant 1.0, is omitted). -/
structure PlatformInfo where
  pid : String
  name : String
  category : String
  icon : String
  urlType : String
  metadata : List (String × List Char)
deriving DecidableEq

/-- Model of `GenericHandler.can_handle`: accepts every http(s) URL, classifying it
as a direct file when the lower-cased URL path ends in a known extension
and as `unknown` (try yt-dlp) otherwise. -/
def genericCanHandle (url : List Char) : Option PlatformInfo :=
  if startsWithL "http://".data url || startsWithL "https://".data url then
    let path := lowerL (urlPath url)
    match DIRECT_EXTENSIONS.find? (fun ext => endsWithL ext path) with
    | some ext =>
      some ⟨"generic", "Direct Download", "file", "file", "direct",
        [("extension", ext)]⟩
    | none =>
      some ⟨"generic", "Direct Download", "general", "download", "unknown",
        []⟩
  else none

/-- Model of `PlatformRegistry._get_priority`: the fixed priority table, with the
register-call default (50 for every handler) for ids not listed. -/
def fixedPriorities : List (String × Nat) :=
  [("onion", 10), ("archive", 15), ("news", 20), ("youtube", 30),
   ("instagram", 35), ("tiktok", 35), ("twitter", 35), ("generic", 100)]

def detectPriority (pid : String) (dflt : Nat) : Nat :=
  (fixedPriorities.lookup pid).getD dflt

/-- Stable insertion of a new id into an already priority-sorted order:
after each append the source re-sorts with Python's stable `list.sort`,
which places the appended id after every id of equal or smaller key. -/
def insertSorted (key : String → Nat) (x : String) : List String → List String
  | [] => [x]
  | y :: ys => if key x < key y then x :: y :: ys else y :: insertSorted key x ys

/-- Model of `PlatformRegistry.register` restricted to its effect on
`_detection_order` (all source call sites use the default priority 50). -/
def registerHandler (order : List String) (pid : String) : List String :=
  if pid ∈ order then order
  else insertSorted (fun x => detectPriority x 50) pid order

/-- The detection order after `load_all_platforms` registers the twelve
handlers in source order. -/
def loadOrder : List String :=
  ["youtube", "instagram", "tiktok", "twitter", "reddit", "github",
   "civitai", "huggingface", "telegram", "news", "archive",
   "generic"].foldl registerHandler []

/-- Model of `PlatformRegistry.detect`: walk the detection order, query each
registered handler, first match wins. -/
def detect (handlers : String → Option (List Char → Option PlatformInfo)) :
    List String → List Char → Option PlatformInfo
  | [], _ => none
  | pid :: rest, url =>
    match handlers pid with
    | none => detect handlers rest url
    | some ch =>
      match ch url with
      | some info => some info
      | none => detect handlers rest url

/-- The handler table: `generic` maps to the generic classifier; the
behaviour of the eleven specific handlers is left abstract (parameter
`h`), since totality cannot depend on it. -/
def handlerMap (h : String → Option (List Char → Option PlatformInfo)) :
    String → Option (List Char → Option PlatformInfo) :=
  fun pid => if pid = "generic" then some genericCanHandle else h pid

theorem genericCanHandle_isSome (url : List Char)
    (h : (startsWithL "http://".data url ||
          startsWithL "https://".data url) = true) :
    (genericCanHandle url).isSome = true := by
  unfold genericCanHandle
  rw [if_pos h]
  cases hf : DIRECT_EXTENSIONS.find? (fun ext => endsWithL ext (lowerL (urlPath url))) <;>
    simp [hf]

theorem detect_isSome_of_generic
    (handlers : String → Option (List Char → Option PlatformInfo))
    (order : List String) (url : List Char)
    (g : List Char → Option PlatformInfo)
    (hmem : "generic" ∈ order) (hg : handlers "generic" = some g)
    (hsome : (g url).isSome = true) :
    (detect handlers order url).isSome = true := by
  induction order with
  | nil => simp at hmem
  | cons pid rest ih =>
    by_cases hpid : pid = "generic"
    · subst hpid
      simp only [detect, hg]
      cases hgu : g url with
      | none => rw [hgu] at hsome; simp at hsome
      | some i => simp
    · have hmem' : "generic" ∈ rest := by
        rcases List.mem_cons.mp hmem with h | h
        · exact absurd h.symm hpid
        · exact h
      cases hh : handlers pid with
      | none =>
        simp only [detect, hh]
        exact ih hmem'
      | some ch =>
        simp only [detect, hh]
        cases hcu : ch url with
        | some i => simp [hcu]
        | none =>
          simp only [hcu]
          exact ih hmem'

/-- C6: router totality — for every URL beginning with http:// or
https://, `detect` over the loaded registry returns a platform descriptor,
whatever the eleven specific handlers answer, because the generic handler
is pinned at priority 100, sorts last in the detection order, and accepts
any http(s) URL. -/
theorem C6_router_totality
    (h : String → Option (List Char → Option PlatformInfo))
    (url : List Char)
    (hurl : (startsWithL "http://".data url ||
             startsWithL "https://".data url) = true) :
    (detect (handlerMap h) loadOrder url).isSome = true
    ∧ detectPriority "generic" 50 = 100
    ∧ loadOrder.getLast? = some "generic" := by
  refine ⟨?_, by decide, by decide⟩
  refine detect_isSome_of_generic (handlerMap h) loadOrder url
    genericCanHandle ?_ ?_ (genericCanHandle_isSome url hurl)
  · decide
  · simp [handlerMap]

theorem C6_router_totality_witness :
    ((startsWithL "http://".data "https://example.org/file.zip".data ||
      startsWithL "https://".data "https://example.org/file.zip".data)
        = true)
    ∧ ((detect (handlerMap (fun _ => none)) loadOrder
        "https://example.org/file.zip".data).isSome = true
      ∧ detectPriority "generic" 50 = 100
      ∧ loadOrder.getLast? = some "generic") :=
  ⟨by decide, C6_router_totality (fun _ => none) _ (by decide)⟩

/-! ## YouTube handler (app/platforms/handlers/youtube.py) -/

/-- Model of `YouTubeHandler._get_format_string`: the `formats` dict. -/
def ytFormats : List (String × String) :=
  [("best", "bestvideo[ext=mp4]+bestaudio[ext=m4a]/best[ext=mp4]/best"),
   ("8k", "bestvideo[height<=4320]+bestaudio/best"),
   ("4k", "bestvideo[height<=2160]+bestaudio/best"),
   ("1080p", "bestvideo[height<=1080]+bestaudio/best"),
   ("720p", "bestvideo[height<=720]+bestaudio/best"),
   ("480p", "bestvideo[height<=480]+bestaudio/best"),
   ("360p", "bestvideo[height<=360]+bestaudio/best"),
   ("audio", "bestaudio/best")]

/-- Lookup `formats.get(quality, formats["best"])`. -/
def getFormatString (q : String) : String :=
  match ytFormats.lookup q with
  | some f => f
  | none => (ytFormats.lookup "best").getD ""

/-- One entry of `ydl_opts["postprocessors"]`. -/
structure PostProcessor where
  key : String
  preferredcodec : String
  preferredquality : String
deriving DecidableEq

/-- The post-processor list built by `YouTubeHandler.download`: audio
extraction is appended when the quality preset is `audio` or the `format`
option is `mp3`. -/
def ytPostprocessors (quality : String) (fmt : Option String) :
    List PostProcessor :=
  if quality = "audio" || fmt = some "mp3" then
    [⟨"FFmpegExtractAudio", "mp3", "192"⟩]
  else []

/-- C8: the YouTube quality-to-format mapping is exactly as specified:
`best` maps to the mp4-preferring expression, the six resolution presets
map to `bestvideo[height<=H]+bestaudio/best` with H = 4320, 2160, 1080,
720, 480, 360, and `audio` maps to `bestaudio/best` and additionally adds
the FFmpeg audio-extraction post-processing step. -/
theorem C8_quality_format_mapping :
    getFormatString "best" =
      "bestvideo[ext=mp4]+bestaudio[ext=m4a]/best[ext=mp4]/best"
    ∧ getFormatString "8k" = "bestvideo[height<=4320]+bestaudio/best"
    ∧ getFormatString "4k" = "bestvideo[height<=2160]+bestaudio/best"
    ∧ getFormatString "1080p" = "bestvideo[height<=1080]+bestaudio/best"
    ∧ getFormatString "720p" = "bestvideo[height<=720]+bestaudio/best"
    ∧ getFormatString "480p" = "bestvideo[height<=480]+bestaudio/best"
    ∧ getFormatString "360p" = "bestvideo[height<=360]+bestaudio/best"
    ∧ getFormatString "audio" = "bestaudio/best"
    ∧ ytPostprocessors "audio" none =
        [⟨"FFmpegExtractAudio", "mp3", "192"⟩]
    ∧ ytPostprocessors "best" none = [] := by
  decide
